import Mathlib

set_option maxHeartbeats 1000000

/-!
Verification development for the py2neo Cypher core
(`src/py2neo/cypher/core.py`).

The embedding models:
- `presubstitute` (lines 54-78): the marker-driven textual splicing of
  parameter values into statement text, with the parameters map filtered
  of consumed keys.  Statement text is a `List Char`; the unbounded
  `while` loop is modelled by an explicit fuel argument, with a dedicated
  `fuelExhausted` outcome that is a model artifact only (the theorems
  always supply enough fuel).  The external `cypher_escape` collaborator
  (from `py2neo.cypher.lang`, not part of this core) is a parameter
  `esc` of the model.
- `Result` (lines 362-439): keys, records, the `processed` flag, and the
  guarded accessors `__len__`, `__getitem__`, `__iter__` and `value`.
- `Transaction` (lines 174-355): the statement queue, the pending-result
  queue (modelled as indices into the list of all results ever created,
  mirroring Python object aliasing), endpoint discovery, the `finished`
  flag, `execute`, `post` and `rollback`.  The network exchange inside
  `post` is an explicit input (`NetOutcome`): either the server response
  or a transport failure; the per-row hydration (external `graph.hydrate`
  plus `RecordProducer.produce`, selected by the `hydrate` flag) is the
  row transform parameter `rowFn`, which is the identity for
  `hydrate=False`.
-/

namespace Py2neoCypher

/-- A parameter value as seen by `presubstitute`: a Python int, a string,
a tuple, or any other collection (list/set), mirroring the
`isinstance`/`is_collection` dispatch at lines 66-73 of core.py. -/
inductive PValue where
  | int (n : Int)
  | str (s : String)
  | tuple (elems : List PValue)
  | coll (elems : List PValue)

/-- The `isinstance(value, integer)` test. -/
def PValue.isInt : PValue → Bool
  | .int _ => true
  | _ => false

/-- Extract the integer from an integer value (unused fallback 0). -/
def PValue.asInt : PValue → Int
  | .int n => n
  | _ => 0

/-- Errors arising inside `presubstitute`: the `KeyError` raised for a
marker whose key is absent (named `PresubstitutionError` in the spec),
the `IndexError` from `value[0]` on an empty tuple, and the model-only
fuel-exhaustion outcome standing for a non-terminating `while` loop. -/
inductive PresubErr where
  | missingKey (key : List Char)
  | indexError
  | fuelExhausted
deriving Repr, DecidableEq

/-- Decimal digits of a natural number, most significant first, with
explicit fuel (the fuel `n + 1` used by `natChars` always suffices). -/
def natCharsAux : Nat → Nat → List Char
  | 0, _ => []
  | fuel + 1, n =>
    if n < 10 then [Nat.digitChar n]
    else natCharsAux fuel (n / 10) ++ [Nat.digitChar (n % 10)]

/-- Decimal text of a natural number, as Python `str` renders it. -/
def natChars (n : Nat) : List Char := natCharsAux (n + 1) n

/-- Decimal text of an integer, as Python `str`/`%d` render it. -/
def intChars (n : Int) : List Char :=
  if n < 0 then '-' :: natChars n.natAbs else natChars n.toNat

/-- Python `s.partition(c)` for a single-character separator: the part
before the first occurrence, whether the separator occurred, and the
part after it (`(s, false, [])` when it does not occur). -/
def partitionChar (c : Char) : List Char → List Char × Bool × List Char
  | [] => ([], false, [])
  | x :: xs =>
    if x = c then ([], true, xs)
    else
      let r := partitionChar c xs
      (x :: r.1, r.2.1, r.2.2)

/-- `":".join(...)` on already-rendered fragments. -/
def joinColon (xs : List (List Char)) : List Char := List.intercalate [':'] xs

/-- Rendering of one presubstitution value (core.py lines 66-73):
integers become decimal text; all-integer tuples become
`first..last` (crashing with `IndexError` on the empty tuple, as
`value[0]` does); other collections are escaped element-wise and joined
with `:`; everything else is escaped as a single literal.  `esc` is the
external `cypher_escape` collaborator. -/
def renderValue (esc : PValue → List Char) : PValue → Except PresubErr (List Char)
  | .int n => .ok (intChars n)
  | .tuple es =>
    if es.all PValue.isInt then
      match es.head?, es.getLast? with
      | some f, some l => .ok (intChars f.asInt ++ '.' :: '.' :: intChars l.asInt)
      | _, _ => .error .indexError
    else .ok (joinColon (es.map esc))
  | .coll es => .ok (joinColon (es.map esc))
  | .str s => .ok (esc (.str s))

/-- The `while more:` loop of `presubstitute` (lines 57-76), with fuel.
Each iteration splits the statement at the first `«`, extracts the key up
to the next `»`, looks it up (raising for a missing key), renders the
value and splices it in; when no `«` remains, the final parameter map is
the input filtered of every consumed key (line 77). -/
def presubLoop (esc : PValue → List Char) :
    Nat → List Char → List (List Char × PValue) → List (List Char) →
    Except PresubErr (List Char × List (List Char × PValue))
  | 0, _, _, _ => .error .fuelExhausted
  | fuel + 1, stmt, params, acc =>
    let po := partitionChar '«' stmt
    if po.2.1 then
      let pc := partitionChar '»' po.2.2
      match params.lookup pc.1 with
      | none => .error (.missingKey pc.1)
      | some v =>
        match renderValue esc v with
        | .error e => .error e
        | .ok vt => presubLoop esc fuel (po.1 ++ vt ++ pc.2.2) params (pc.1 :: acc)
    else
      .ok (stmt, params.filter fun p => !(acc.contains p.1))

/-- `presubstitute(statement, parameters)` (core.py lines 54-78). -/
def presubstitute (esc : PValue → List Char) (fuel : Nat) (stmt : List Char)
    (params : List (List Char × PValue)) :
    Except PresubErr (List Char × List (List Char × PValue)) :=
  presubLoop esc fuel stmt params []

/-- Errors raised by `Result` accessors: `NotProcessedError` before the
owning transaction has posted, and Python `IndexError` for out-of-range
indexing. -/
inductive ResErr where
  | notProcessed
  | indexError
deriving Repr, DecidableEq

/-- Return shape of `Result.value`: the single value of a one-column
first record, or the whole first record. -/
inductive CellOrRecord (α : Type) where
  | cell (x : α)
  | record (r : List α)
deriving Repr, DecidableEq

/-- `Result` (core.py lines 362-411): column keys, the record rows, and
the `processed` flag.  Rows are `List α` (raw `rest` payloads when
`hydrate=False`, hydrated records otherwise). -/
structure Result (α : Type) where
  keys : List String
  records : List (List α)
  processed : Bool
deriving Repr, DecidableEq

variable {α : Type}

/-- A freshly created `Result(graph)`: empty and unprocessed. -/
def Result.new : Result α := ⟨[], [], false⟩

/-- `Result.__len__`: guarded by `_assert_processed`. -/
def Result.len (r : Result α) : Except ResErr Nat :=
  if r.processed then .ok r.records.length else .error .notProcessed

/-- `Result.__getitem__` at an integer index: guarded by
`_assert_processed`; `IndexError` out of range. -/
def Result.getItem (r : Result α) (i : Nat) : Except ResErr (List α) :=
  if r.processed then
    match r.records.get? i with
    | some rec => .ok rec
    | none => .error .indexError
  else .error .notProcessed

/-- `Result.__iter__`: guarded by `_assert_processed`. -/
def Result.iter (r : Result α) : Except ResErr (List (List α)) :=
  if r.processed then .ok r.records else .error .notProcessed

/-- `Result.process(keys, records)`: overwrites keys and records and
sets the `processed` flag. -/
def Result.process (_r : Result α) (keys : List String)
    (records : List (List α)) : Result α :=
  ⟨keys, records, true⟩

/-- `Result.value` (lines 413-428): `None` when there is no record or
the first record is empty, the single value of a one-element first
record, otherwise the whole first record. -/
def Result.value (r : Result α) : Except ResErr (Option (CellOrRecord α)) :=
  if r.processed then
    match r.records with
    | [] => .ok none
    | rec :: _ =>
      match rec with
      | [] => .ok none
      | [x] => .ok (some (.cell x))
      | _ :: _ :: _ => .ok (some (.record rec))
  else .error .notProcessed

/-- One queued statement (the `OrderedDict` built at lines 251-255):
the presubstituted text and the filtered parameters.  The constant
`resultDataContents` directive is omitted as it carries no state. -/
structure Stmt where
  statement : List Char
  parameters : List (List Char × PValue)

/-- `Transaction` state (lines 181-190).  `pending` holds indices into
`allResults`, the list of every `Result` this transaction ever created,
modelling Python's aliasing between `self.results` and the handles
returned to the caller.  `executeEP`/`commitEP` are the lazily learned
endpoints (`__execute`/`__commit`); the begin endpoint is `uri` and the
begin-commit endpoint is `uri ++ "/commit"` as built in `__init__`. -/
structure Tx (α : Type) where
  uri : String
  statements : List Stmt
  pending : List Nat
  allResults : List (Result α)
  executeEP : Option String
  commitEP : Option String
  finished : Bool

/-- Errors raised by `Transaction` operations: `Finished` (the spec's
`FinishedError`), a presubstitution error surfaced by `execute`, a
transport failure, a server-reported error (`error_class.hydrate` of the
first entry), and the `IndexError` from popping an empty results list. -/
inductive TxErr where
  | finishedErr
  | presub (e : PresubErr)
  | netFail
  | server (e : String)
  | popEmpty
deriving Repr, DecidableEq

/-- A parsed server response: optional `Location` header, optional
`commit` URL, the `errors` list, and the per-statement result blocks
(`columns` and `data` rows). -/
structure Response (α : Type) where
  location : Option String
  commit : Option String
  errors : List String
  results : List (List String × List (List α))

/-- Outcome of the network exchange inside `post`: a response, or a
transport failure raised by `resource.post`. -/
inductive NetOutcome (α : Type) where
  | ok (rs : Response α)
  | netFail

/-- `Transaction.__init__(uri)`: empty queues, no learned endpoints,
not finished. -/
def Tx.begin (uri : String) : Tx α := ⟨uri, [], [], [], none, none, false⟩

/-- `Transaction.execute` (lines 224-258) after the upstream parameter
merge: rejects when finished, presubstitutes (raising on error before
anything is queued and before any network call), then appends the
encoded statement and a fresh unprocessed `Result`, returning the new
result handle (its index). -/
def Tx.execute (esc : PValue → List Char) (fuel : Nat) (t : Tx α)
    (statement : List Char) (params : List (List Char × PValue)) :
    Except TxErr (Tx α × Nat) :=
  if t.finished then .error .finishedErr
  else
    match presubstitute esc fuel statement params with
    | .error e => .error (.presub e)
    | .ok (s, p) =>
      .ok ({ t with
              statements := t.statements ++ [⟨s, p⟩],
              pending := t.pending ++ [t.allResults.length],
              allResults := t.allResults ++ [Result.new] },
           t.allResults.length)

/-- A sequence of `execute` calls, collecting the returned handles. -/
def Tx.executeMany (esc : PValue → List Char) (fuel : Nat) :
    Tx α → List (List Char × List (List Char × PValue)) →
    Except TxErr (Tx α × List Nat)
  | t, [] => .ok (t, [])
  | t, (s, p) :: rest =>
    match t.execute esc fuel s p with
    | .error e => .error e
    | .ok (t1, i) =>
      match t1.executeMany esc fuel rest with
      | .error e => .error e
      | .ok (t2, is) => .ok (t2, i :: is)

/-- The result-matching loop of `post` (lines 303-311): for each result
block in response order, pop the next pending result index and process
that result with the block's columns and rows (transformed per row by
`rowFn`, the hydration hook).  Popping an empty pending list is the
Python `IndexError`. -/
def processBlocks (rowFn : List String → List α → List α) :
    List Nat → List (Result α) → List (List String × List (List α)) →
    List Nat × List (Result α) × Option TxErr
  | pending, rs, [] => (pending, rs, none)
  | pending, rs, (keys, data) :: blocks =>
    match pending with
    | [] => ([], rs, some .popEmpty)
    | i :: is =>
      processBlocks rowFn is (rs.set i ⟨keys, data.map (rowFn keys), true⟩) blocks

/-- `Transaction.post` (lines 280-311).  Returns the state afterwards,
the endpoint the request targeted (`none` when no request was made), and
the raised error if any.  Mirrors the source order: the finished guard;
endpoint selection (`__commit or __begin_commit` when committing, else
`__execute or __begin`); setting `finished` before the network call when
committing; then, on a response: learn the execute endpoint from the
location, clear the statement queue, learn the commit endpoint, raise on
a reported error (first entry), else match result blocks to pending
results in order. -/
def Tx.post (rowFn : List String → List α → List α) (t : Tx α)
    (commit : Bool) (out : NetOutcome α) :
    Tx α × Option String × Option TxErr :=
  if t.finished then (t, none, some .finishedErr)
  else
    let target := if commit then t.commitEP.getD (t.uri ++ "/commit")
                  else t.executeEP.getD t.uri
    let t1 := if commit then { t with finished := true } else t
    match out with
    | .netFail => (t1, some target, some .netFail)
    | .ok rs =>
      let t2 := match rs.location with
        | some loc => { t1 with executeEP := some loc }
        | none => t1
      let t3 := { t2 with statements := [] }
      let t4 := match rs.commit with
        | some c => { t3 with commitEP := some c }
        | none => t3
      match rs.errors with
      | e :: _ => (t4, some target, some (.server e))
      | [] =>
        let pr := processBlocks rowFn t4.pending t4.allResults rs.results
        ({ t4 with pending := pr.1, allResults := pr.2.1 }, some target, pr.2.2)

/-- `Transaction.rollback` (lines 346-355): rejects when finished;
deletes the execute endpoint when one exists (the delete may fail with a
transport error, modelled by `deleteFails`); the `finally` clause marks
the transaction finished in every case. -/
def Tx.rollback (t : Tx α) (deleteFails : Bool) : Tx α × Option TxErr :=
  if t.finished then (t, some .finishedErr)
  else ({ t with finished := true },
        if t.executeEP.isSome && deleteFails then some .netFail else none)

/-! Helper lemmas about decimal rendering and `partition`. -/

lemma digitChar_ne_laquo (d : Nat) (hd : d < 10) : Nat.digitChar d ≠ '«' := by
  interval_cases d <;> decide

lemma natCharsAux_not_mem_laquo : ∀ (fuel n : Nat), '«' ∉ natCharsAux fuel n := by
  intro fuel
  induction fuel with
  | zero => intro n; simp [natCharsAux]
  | succ f ih =>
    intro n
    simp only [natCharsAux]
    split
    · intro h
      rw [List.mem_singleton] at h
      exact digitChar_ne_laquo n (by omega) h.symm
    · intro h
      rcases List.mem_append.mp h with h1 | h2
      · exact ih (n / 10) h1
      · rw [List.mem_singleton] at h2
        exact digitChar_ne_laquo (n % 10) (Nat.mod_lt n (by omega)) h2.symm

lemma intChars_not_mem_laquo (n : Int) : '«' ∉ intChars n := by
  unfold intChars natChars
  split
  · intro h
    rcases List.mem_cons.mp h with h1 | h2
    · exact absurd h1 (by decide)
    · exact natCharsAux_not_mem_laquo _ _ h2
  · exact natCharsAux_not_mem_laquo _ _

lemma partitionChar_not_mem (c : Char) (s : List Char) (h : c ∉ s) :
    partitionChar c s = (s, false, []) := by
  induction s with
  | nil => rfl
  | cons x xs ih =>
    have hx : ¬ x = c := fun he => h (by simp [he])
    have hxs : c ∉ xs := fun hm => h (by simp [hm])
    simp [partitionChar, hx, ih hxs]

lemma partitionChar_split (c : Char) (b rest : List Char) (h : c ∉ b) :
    partitionChar c (b ++ c :: rest) = (b, true, rest) := by
  induction b with
  | nil => simp [partitionChar]
  | cons x xs ih =>
    have hx : ¬ x = c := fun he => h (by simp [he])
    have hxs : c ∉ xs := fun hm => h (by simp [hm])
    simp [partitionChar, hx, ih hxs]

/-- One pass of the presubstitution loop over a statement containing a
single marker: the marker is replaced by the rendered value and the
consumed key is dropped from the parameter map. -/
lemma presubLoop_single (esc : PValue → List Char) (fuel : Nat)
    (b k a vt : List Char) (params : List (List Char × PValue)) (v : PValue)
    (hb : '«' ∉ b) (hk : '»' ∉ k) (ha : '«' ∉ a) (hvt : '«' ∉ vt)
    (hlook : params.lookup k = some v)
    (hrender : renderValue esc v = .ok vt) :
    presubLoop esc (fuel + 2) (b ++ '«' :: (k ++ '»' :: a)) params [] =
      .ok (b ++ vt ++ a, params.filter fun p => !(decide (p.1 = k))) := by
  have hsplit1 := partitionChar_split '«' b (k ++ '»' :: a) hb
  have hsplit2 := partitionChar_split '»' k a hk
  have hno : '«' ∉ b ++ vt ++ a := by
    intro h
    rcases List.mem_append.mp h with h1 | h2
    · rcases List.mem_append.mp h1 with h3 | h4
      · exact hb h3
      · exact hvt h4
    · exact ha h2
  simp only [presubLoop, hsplit1, hsplit2, hlook, hrender]
  simp only [presubLoop, partitionChar_not_mem '«' _ hno]
  simp

/-- Claim C3: for every statement template containing exactly one
presubstitution marker whose enclosed key maps to an integer n in the
parameter mapping, presubstitution returns the statement with the marker
replaced by the decimal text of n, and a parameter mapping from which
that key has been removed, all other entries unchanged. -/
theorem presub_single_int_marker (esc : PValue → List Char) (fuel : Nat)
    (b k a : List Char) (params : List (List Char × PValue)) (n : Int)
    (hb : '«' ∉ b) (hk : '»' ∉ k) (ha : '«' ∉ a)
    (hlook : params.lookup k = some (.int n)) (hfuel : 2 ≤ fuel) :
    presubstitute esc fuel (b ++ '«' :: (k ++ '»' :: a)) params =
      .ok (b ++ intChars n ++ a, params.filter fun p => !(decide (p.1 = k))) := by
  obtain ⟨m, rfl⟩ : ∃ m, fuel = m + 2 := ⟨fuel - 2, by omega⟩
  exact presubLoop_single esc m b k a (intChars n) params (.int n)
    hb hk ha (intChars_not_mem_laquo n) hlook rfl

theorem presub_single_int_marker_witness :
    presubstitute (fun _ => []) 2 ("LIMIT ".toList ++ '«' :: ("n".toList ++ '»' :: []))
        [("n".toList, .int 5), ("m".toList, .str "y")] =
      .ok ("LIMIT 5".toList, [("m".toList, .str "y")]) := by
  have h := presub_single_int_marker (fun _ => []) 2 ("LIMIT ".toList) ("n".toList) []
    [("n".toList, .int 5), ("m".toList, .str "y")] 5
    (by decide) (by decide) (by decide) rfl (by omega)
  exact h

/-- Claim C4: a presubstitution marker whose enclosed key is absent from
the parameter mapping makes presubstitution, and hence
`Transaction.execute`, raise the missing-key error (the spec's
`PresubstitutionError`).  `Tx.execute` performs no network action at
all, so the error is raised before any network call; on the error path
it returns no successor state, so nothing is queued. -/
theorem presub_missing_key {α : Type} (esc : PValue → List Char) (fuel : Nat)
    (b k a : List Char) (params : List (List Char × PValue)) (t : Tx α)
    (hb : '«' ∉ b) (hk : '»' ∉ k)
    (hlook : params.lookup k = none) (hfuel : 1 ≤ fuel)
    (hfin : t.finished = false) :
    presubstitute esc fuel (b ++ '«' :: (k ++ '»' :: a)) params =
      .error (.missingKey k) ∧
    t.execute esc fuel (b ++ '«' :: (k ++ '»' :: a)) params =
      .error (.presub (.missingKey k)) := by
  obtain ⟨m, rfl⟩ : ∃ m, fuel = m + 1 := ⟨fuel - 1, by omega⟩
  have h1 : presubstitute esc (m + 1) (b ++ '«' :: (k ++ '»' :: a)) params =
      .error (.missingKey k) := by
    simp only [presubstitute, presubLoop,
      partitionChar_split '«' b (k ++ '»' :: a) hb,
      partitionChar_split '»' k a hk, hlook]
    simp
  refine ⟨h1, ?_⟩
  simp [Tx.execute, hfin, h1]

theorem presub_missing_key_witness :
    presubstitute (fun _ => []) 1 ("RETURN ".toList ++ '«' :: ("x".toList ++ '»' :: []))
        [("y".toList, PValue.int 3)] = .error (.missingKey "x".toList) ∧
    (Tx.begin (α := Nat) "u").execute (fun _ => []) 1
        ("RETURN ".toList ++ '«' :: ("x".toList ++ '»' :: []))
        [("y".toList, PValue.int 3)] = .error (.presub (.missingKey "x".toList)) := by
  exact presub_missing_key (fun _ => []) 1 ("RETURN ".toList) ("x".toList) []
    [("y".toList, PValue.int 3)] (Tx.begin "u") (by decide) (by decide) rfl
    (by omega) rfl

/-- Claim C10 counterexample: the empty tuple has all-integer elements
(vacuously), yet rendering it raises `IndexError` from `value[0]`
instead of producing any `first..last` text, so the claim fails for a
tuple of length zero. -/
theorem render_tuple_empty_counterexample :
    ([] : List PValue).all PValue.isInt = true ∧
    renderValue (fun _ => []) (.tuple []) = .error .indexError :=
  ⟨rfl, rfl⟩

/-- Claim C10 (amended to tuples of length at least one): for every
presubstitution value that is a nonempty tuple whose elements are all
integers, the rendered text is first..last built from only the first and
last elements of the tuple, not only for a pair of bounds. -/
theorem render_tuple_first_last (esc : PValue → List Char)
    (es : List PValue) (h : es ≠ []) (hall : es.all PValue.isInt = true) :
    renderValue esc (.tuple es) =
      .ok (intChars (es.head h).asInt ++ '.' :: '.' ::
           intChars ((es.getLast h).asInt)) := by
  simp only [renderValue, hall, if_true]
  rw [List.head?_eq_head h, List.getLast?_eq_getLast_of_ne_nil h]

theorem render_tuple_first_last_witness :
    renderValue (fun _ => []) (.tuple [.int 1, .int 5, .int 9]) =
      .ok ("1..9".toList) := by
  have h := render_tuple_first_last (fun _ => [])
    [.int 1, .int 5, .int 9] (List.cons_ne_nil _ _) rfl
  exact h

/-- Claim C5: for every processed Result, `value()` returns `None` when
the result has no records, the single value `record[0]` when the first
record has exactly one column, and the whole first record when it has
more than one column. -/
theorem result_value_contract (r : Result α) (h : r.processed = true) :
    (r.records = [] → r.value = .ok none) ∧
    (∀ x rest, r.records = [x] :: rest → r.value = .ok (some (.cell x))) ∧
    (∀ rec rest, r.records = rec :: rest → 1 < rec.length →
      r.value = .ok (some (.record rec))) := by
  refine ⟨?_, ?_, ?_⟩
  · intro hrec
    simp [Result.value, h, hrec]
  · intro x rest hrec
    simp [Result.value, h, hrec]
  · intro rec rest hrec hlen
    match rec, hlen with
    | x :: y :: tl, _ => simp [Result.value, h, hrec]

theorem result_value_contract_witness :
    (⟨["a"], [], true⟩ : Result Int).value = .ok none ∧
    (⟨["a"], [[5]], true⟩ : Result Int).value = .ok (some (.cell 5)) ∧
    (⟨["a", "b"], [[5, 7]], true⟩ : Result Int).value =
      .ok (some (.record [5, 7])) := by
  refine ⟨(result_value_contract _ rfl).1 rfl,
          (result_value_contract _ rfl).2.1 5 [] rfl,
          (result_value_contract _ rfl).2.2 [5, 7] [] rfl (by decide)⟩

/-- Claim C6: before a Result has been processed, its iteration, length
and indexing each raise `NotProcessedError`; after `process(keys,
records)` they behave as a read-only ordered sequence of exactly those
records. -/
theorem result_guard (r : Result α) (keys : List String)
    (recs : List (List α)) (i : Nat) (hr : r.processed = false) :
    (r.len = .error .notProcessed ∧ r.iter = .error .notProcessed ∧
     r.getItem i = .error .notProcessed) ∧
    ((r.process keys recs).len = .ok recs.length ∧
     (r.process keys recs).iter = .ok recs ∧
     (∀ j x, recs.get? j = some x → (r.process keys recs).getItem j = .ok x)) := by
  constructor
  · refine ⟨?_, ?_, ?_⟩ <;> simp [Result.len, Result.iter, Result.getItem, hr]
  · refine ⟨?_, ?_, ?_⟩
    · simp [Result.process, Result.len]
    · simp [Result.process, Result.iter]
    · intro j x hj
      rw [List.get?_eq_getElem?] at hj
      simp [Result.process, Result.getItem, hj]

theorem result_guard_witness :
    ((Result.new : Result Int).len = .error .notProcessed ∧
     (Result.new : Result Int).iter = .error .notProcessed ∧
     (Result.new : Result Int).getItem 0 = .error .notProcessed) ∧
    (((Result.new : Result Int).process ["a"] [[1], [2]]).len = .ok 2 ∧
     ((Result.new : Result Int).process ["a"] [[1], [2]]).iter = .ok [[1], [2]] ∧
     ((Result.new : Result Int).process ["a"] [[1], [2]]).getItem 1 = .ok [2]) := by
  have h := result_guard (Result.new : Result Int) ["a"] [[1], [2]] 0 rfl
  exact ⟨h.1, h.2.1, h.2.2.1, h.2.2.2 1 [2] rfl⟩

/-! Helper lemmas about the transaction lifecycle. -/

lemma tx_execute_finished (esc : PValue → List Char) (fuel : Nat) (t : Tx α)
    (stmt : List Char) (params : List (List Char × PValue))
    (h : t.finished = true) :
    t.execute esc fuel stmt params = .error .finishedErr := by
  simp [Tx.execute, h]

lemma tx_post_finished (rowFn : List String → List α → List α) (t : Tx α)
    (c : Bool) (out : NetOutcome α) (h : t.finished = true) :
    t.post rowFn c out = (t, none, some .finishedErr) := by
  simp [Tx.post, h]

lemma tx_post_commit_finished (rowFn : List String → List α → List α)
    (t : Tx α) (out : NetOutcome α) (hfin : t.finished = false) :
    (t.post rowFn true out).1.finished = true := by
  cases out with
  | netFail => simp [Tx.post, hfin]
  | ok rs =>
    rcases rs with ⟨loc, cm, errs, blocks⟩
    cases loc <;> cases cm <;> cases errs <;> simp [Tx.post, hfin]

lemma tx_rollback_finished (t : Tx α) (df : Bool) (hfin : t.finished = false) :
    (t.rollback df).1.finished = true := by
  simp [Tx.rollback, hfin]

/-- Claim C1: for every Transaction that has finished (by commit or by
rollback), any subsequent `execute()` or `post()` raises `FinishedError`
instead of queuing or sending anything: `execute` returns no successor
state, and `post` leaves the state unchanged and targets no endpoint. -/
theorem tx_finished_rejects (rowFn : List String → List α → List α)
    (esc : PValue → List Char) (fuel : Nat) (t : Tx α) (stmt : List Char)
    (params : List (List Char × PValue)) (c1 c2 : Bool)
    (out1 out2 out3 : NetOutcome α) (df : Bool) (hfin : t.finished = false) :
    ((t.post rowFn true out1).1.execute esc fuel stmt params =
       .error .finishedErr ∧
     (t.post rowFn true out1).1.post rowFn c1 out2 =
       ((t.post rowFn true out1).1, none, some .finishedErr)) ∧
    ((t.rollback df).1.execute esc fuel stmt params = .error .finishedErr ∧
     (t.rollback df).1.post rowFn c2 out3 =
       ((t.rollback df).1, none, some .finishedErr)) := by
  have h1 := tx_post_commit_finished rowFn t out1 hfin
  have h2 := tx_rollback_finished t df hfin
  exact ⟨⟨tx_execute_finished esc fuel _ stmt params h1,
          tx_post_finished rowFn _ c1 out2 h1⟩,
         ⟨tx_execute_finished esc fuel _ stmt params h2,
          tx_post_finished rowFn _ c2 out3 h2⟩⟩

theorem tx_finished_rejects_witness :
    (((Tx.begin (α := Nat) "u").post (fun _ r => r) true .netFail).1.execute
        (fun _ => []) 1 [] [] = .error .finishedErr ∧
     ((Tx.begin (α := Nat) "u").post (fun _ r => r) true .netFail).1.post
        (fun _ r => r) false .netFail =
       (((Tx.begin (α := Nat) "u").post (fun _ r => r) true .netFail).1,
        none, some .finishedErr)) ∧
    (((Tx.begin (α := Nat) "u").rollback false).1.execute
        (fun _ => []) 1 [] [] = .error .finishedErr ∧
     ((Tx.begin (α := Nat) "u").rollback false).1.post
        (fun _ r => r) true .netFail =
       (((Tx.begin (α := Nat) "u").rollback false).1,
        none, some .finishedErr)) :=
  tx_finished_rejects (fun _ r => r) (fun _ => []) 1 (Tx.begin "u") [] []
    false true .netFail .netFail .netFail false rfl

/-- Claim C2: the `finished` flag is set before the commit or rollback
network call resolves: a commit attempt whose network exchange fails
still leaves the transaction finished (and surfaces the transport
error), and a rollback whose delete fails still marks it finished. -/
theorem tx_finished_before_network_resolves
    (rowFn : List String → List α → List α) (t : Tx α) (df : Bool)
    (hfin : t.finished = false) :
    ((t.post rowFn true .netFail).1.finished = true ∧
     (t.post rowFn true .netFail).2.2 = some .netFail) ∧
    ((t.rollback df).1.finished = true) ∧
    (t.executeEP.isSome = true → (t.rollback true).2 = some .netFail) := by
  refine ⟨⟨?_, ?_⟩, ?_, ?_⟩
  · simp [Tx.post, hfin]
  · simp [Tx.post, hfin]
  · simp [Tx.rollback, hfin]
  · intro h
    simp [Tx.rollback, hfin, h]

theorem tx_finished_before_network_resolves_witness :
    (((⟨"u", [], [], [], some "E", none, false⟩ : Tx Nat).post
        (fun _ r => r) true .netFail).1.finished = true ∧
     ((⟨"u", [], [], [], some "E", none, false⟩ : Tx Nat).post
        (fun _ r => r) true .netFail).2.2 = some .netFail) ∧
    (((⟨"u", [], [], [], some "E", none, false⟩ : Tx Nat).rollback
        true).1.finished = true) ∧
    ((⟨"u", [], [], [], some "E", none, false⟩ : Tx Nat).executeEP.isSome = true →
     ((⟨"u", [], [], [], some "E", none, false⟩ : Tx Nat).rollback true).2 =
       some .netFail) :=
  tx_finished_before_network_resolves (fun _ r => r)
    (⟨"u", [], [], [], some "E", none, false⟩ : Tx Nat) true rfl

/-- Claim C8: for every `post()` whose response body reports one or more
errors, a domain error constructed from the first reported error entry
is raised, and no pending Result is populated: the results and the
pending queue are exactly as before the post. -/
theorem tx_post_server_error (rowFn : List String → List α → List α)
    (t : Tx α) (c : Bool) (rs : Response α) (e : String) (es : List String)
    (hfin : t.finished = false) (herr : rs.errors = e :: es) :
    (t.post rowFn c (.ok rs)).2.2 = some (.server e) ∧
    (t.post rowFn c (.ok rs)).1.allResults = t.allResults ∧
    (t.post rowFn c (.ok rs)).1.pending = t.pending := by
  rcases rs with ⟨loc, cm, errs, blocks⟩
  simp only at herr
  subst herr
  cases loc <;> cases cm <;> cases c <;> simp [Tx.post, hfin]

theorem tx_post_server_error_witness :
    ((⟨"u", [], [0], [Result.new], none, none, false⟩ : Tx Nat).post
        (fun _ r => r) false (.ok ⟨some "L", some "C", ["boom"],
          [(["x"], [[1]])]⟩)).2.2 = some (.server "boom") ∧
    ((⟨"u", [], [0], [Result.new], none, none, false⟩ : Tx Nat).post
        (fun _ r => r) false (.ok ⟨some "L", some "C", ["boom"],
          [(["x"], [[1]])]⟩)).1.allResults = [Result.new] ∧
    ((⟨"u", [], [0], [Result.new], none, none, false⟩ : Tx Nat).post
        (fun _ r => r) false (.ok ⟨some "L", some "C", ["boom"],
          [(["x"], [[1]])]⟩)).1.pending = [0] :=
  tx_post_server_error (fun _ r => r)
    (⟨"u", [], [0], [Result.new], none, none, false⟩ : Tx Nat) false
    ⟨some "L", some "C", ["boom"], [(["x"], [[1]])]⟩ "boom" [] rfl rfl

/-- Claim C9 counterexample: on a fresh transaction (no execute has
happened, no commit endpoint learned), `post(commit=true)` targets the
begin-commit endpoint, the begin URI with "/commit" appended, which is
not the begin endpoint the claim names. -/
theorem post_commit_target_counterexample :
    ((Tx.begin (α := Nat) "http://h/db/tx").post (fun _ r => r) true
        (.ok ⟨none, none, [], []⟩)).2.1 = some "http://h/db/tx/commit" ∧
    ¬ ((Tx.begin (α := Nat) "http://h/db/tx").post (fun _ r => r) true
        (.ok ⟨none, none, [], []⟩)).2.1 = some "http://h/db/tx" := by
  constructor
  · rfl
  · decide

/-- Claim C9 (amended): `post(commit=true)` targets the commit endpoint
learned from an earlier response, falling back to the begin-commit
endpoint (the begin URI with "/commit" appended) when no commit endpoint
has been learned; `post(commit=false)` targets the learned execute
endpoint, falling back to the begin endpoint on the very first post. -/
theorem post_target_endpoints (rowFn : List String → List α → List α)
    (t : Tx α) (c : Bool) (out : NetOutcome α) (hfin : t.finished = false) :
    (t.post rowFn c out).2.1 =
      some (if c then t.commitEP.getD (t.uri ++ "/commit")
            else t.executeEP.getD t.uri) := by
  cases out with
  | netFail => simp [Tx.post, hfin]
  | ok rs =>
    rcases rs with ⟨loc, cm, errs, blocks⟩
    cases loc <;> cases cm <;> cases errs <;> simp [Tx.post, hfin]

theorem post_target_endpoints_witness :
    ((⟨"u", [], [], [], some "E", some "C", false⟩ : Tx Nat).post
        (fun _ r => r) true .netFail).2.1 = some "C" ∧
    ((⟨"u", [], [], [], some "E", some "C", false⟩ : Tx Nat).post
        (fun _ r => r) false .netFail).2.1 = some "E" ∧
    ((Tx.begin (α := Nat) "u").post (fun _ r => r) false .netFail).2.1 =
      some "u" ∧
    ((Tx.begin (α := Nat) "u").post (fun _ r => r) true .netFail).2.1 =
      some "u/commit" :=
  ⟨post_target_endpoints (fun _ r => r) _ true .netFail rfl,
   post_target_endpoints (fun _ r => r) _ false .netFail rfl,
   post_target_endpoints (fun _ r => r) _ false .netFail rfl,
   post_target_endpoints (fun _ r => r) _ true .netFail rfl⟩

/-- Behaviour of the result-matching loop when the pending queue has
exactly one index per response block, the indices are distinct and in
range: every block is assigned, in order, to the result at the matching
pending index; results at other indices are untouched; no error. -/
lemma processBlocks_spec (rowFn : List String → List α → List α) :
    ∀ (bs : List (List String × List (List α))) (p : List Nat)
      (rs : List (Result α)),
      p.length = bs.length → p.Nodup → (∀ i ∈ p, i < rs.length) →
      (processBlocks rowFn p rs bs).1 = [] ∧
      (processBlocks rowFn p rs bs).2.2 = none ∧
      (processBlocks rowFn p rs bs).2.1.length = rs.length ∧
      (∀ j i keys data, p.get? j = some i → bs.get? j = some (keys, data) →
        (processBlocks rowFn p rs bs).2.1.get? i =
          some ⟨keys, data.map (rowFn keys), true⟩) ∧
      (∀ i, i ∉ p → (processBlocks rowFn p rs bs).2.1.get? i = rs.get? i) := by
  intro bs
  induction bs with
  | nil =>
    intro p rs hlen _ _
    have hp : p = [] := List.eq_nil_of_length_eq_zero (by simpa using hlen)
    subst hp
    refine ⟨rfl, rfl, rfl, ?_, fun i _ => rfl⟩
    intro j i keys data hpj _
    simp at hpj
  | cons blk bs ih =>
    intro p rs hlen hnd hin
    obtain ⟨i0, ptl, rfl⟩ : ∃ i0 ptl, p = i0 :: ptl := by
      cases p with
      | nil => simp at hlen
      | cons x l => exact ⟨x, l, rfl⟩
    obtain ⟨keys0, data0⟩ := blk
    have hi0 : i0 < rs.length := hin i0 (by simp)
    have hlen2 : ptl.length = bs.length := by simpa using hlen
    have hnd2 : ptl.Nodup := (List.nodup_cons.mp hnd).2
    have hni : i0 ∉ ptl := (List.nodup_cons.mp hnd).1
    have hin2 : ∀ i ∈ ptl,
        i < (rs.set i0 ⟨keys0, data0.map (rowFn keys0), true⟩).length := by
      intro i hi
      rw [List.length_set]
      exact hin i (by simp [hi])
    have hstep : processBlocks rowFn (i0 :: ptl) rs ((keys0, data0) :: bs) =
        processBlocks rowFn ptl
          (rs.set i0 ⟨keys0, data0.map (rowFn keys0), true⟩) bs := rfl
    obtain ⟨h1, h2, h3, h4, h5⟩ :=
      ih ptl (rs.set i0 ⟨keys0, data0.map (rowFn keys0), true⟩) hlen2 hnd2 hin2
    rw [hstep]
    refine ⟨h1, h2, by rw [h3, List.length_set], ?_, ?_⟩
    · intro j i keys data hpj hbj
      cases j with
      | zero =>
        simp only [List.get?_cons_zero, Option.some_inj] at hpj hbj
        subst hpj
        rw [h5 i0 hni, List.get?_set_eq_of_lt _ hi0]
        cases hbj
        rfl
      | succ j =>
        exact h4 j i keys data (by simpa using hpj) (by simpa using hbj)
    · intro i hi
      have hitl : i ∉ ptl := fun h => hi (by simp [h])
      have hne : i ≠ i0 := fun h => hi (by simp [h])
      rw [h5 i hitl, List.get?_set_ne _ _ (Ne.symm hne)]

/-- Structure of one successful `execute`: the transaction was not
finished, presubstitution succeeded, one statement and one fresh
unprocessed result were appended, and the returned handle is the index
of the new result. -/
lemma tx_execute_ok (esc : PValue → List Char) (fuel : Nat) (t t1 : Tx α)
    (stmt : List Char) (params : List (List Char × PValue)) (i : Nat)
    (hex : t.execute esc fuel stmt params = .ok (t1, i)) :
    t.finished = false ∧ i = t.allResults.length ∧
    ∃ s p, presubstitute esc fuel stmt params = .ok (s, p) ∧
      t1 = { t with
              statements := t.statements ++ [⟨s, p⟩],
              pending := t.pending ++ [t.allResults.length],
              allResults := t.allResults ++ [Result.new] } := by
  cases hfin : t.finished with
  | true => simp [Tx.execute, hfin] at hex
  | false =>
    cases hps : presubstitute esc fuel stmt params with
    | error e => simp [Tx.execute, hfin, hps] at hex
    | ok sp =>
      obtain ⟨s, p⟩ := sp
      simp only [Tx.execute, hfin, hps, Bool.false_eq_true, if_false] at hex
      injection hex with hex
      injection hex with hex1 hex2
      exact ⟨rfl, hex2.symm, s, p, rfl, hex1.symm⟩

/-- Structure of a successful `executeMany` run: the returned handles
are the consecutive indices following the previously created results,
they are pairwise distinct, the pending queue is extended by exactly
those handles in call order, one fresh unprocessed result is appended
per call, and the endpoints, URI and finished flag are untouched. -/
lemma executeMany_spec (esc : PValue → List Char) (fuel : Nat) :
    ∀ (L : List (List Char × List (List Char × PValue))) (t t2 : Tx α)
      (idxs : List Nat),
      t.executeMany esc fuel L = .ok (t2, idxs) →
      idxs.length = L.length ∧
      t2.uri = t.uri ∧ t2.finished = t.finished ∧
      t2.executeEP = t.executeEP ∧ t2.commitEP = t.commitEP ∧
      t2.pending = t.pending ++ idxs ∧
      t2.allResults = t.allResults ++ List.replicate L.length Result.new ∧
      (∀ j, j < L.length → idxs.get? j = some (t.allResults.length + j)) ∧
      idxs.Nodup ∧
      (∀ i ∈ idxs, t.allResults.length ≤ i ∧
        i < t.allResults.length + L.length) := by
  intro L
  induction L with
  | nil =>
    intro t t2 idxs h
    simp only [Tx.executeMany] at h
    injection h with h
    injection h with h1 h2
    subst h1
    subst h2
    simp
  | cons sp L ih =>
    intro t t2 idxs h
    obtain ⟨s, p⟩ := sp
    simp only [Tx.executeMany] at h
    cases hex : t.execute esc fuel s p with
    | error e => rw [hex] at h; exact absurd h (by simp)
    | ok ti =>
      obtain ⟨t1, i⟩ := ti
      rw [hex] at h
      dsimp only at h
      cases hem : t1.executeMany esc fuel L with
      | error e => rw [hem] at h; exact absurd h (by simp)
      | ok tr =>
        obtain ⟨t2x, idxs2⟩ := tr
        rw [hem] at h
        dsimp only at h
        injection h with h
        injection h with h1 h2
        subst h1
        subst h2
        obtain ⟨hfin, hi, s2, p2, _, ht1⟩ :=
          tx_execute_ok esc fuel t t1 s p i hex
        obtain ⟨e1, e2, e3, e4, e5, e6, e7, e8, e9, e10⟩ :=
          ih t1 t2x idxs2 hem
        have ht1res : t1.allResults = t.allResults ++ [Result.new] := by
          rw [ht1]
        have ht1len : t1.allResults.length = t.allResults.length + 1 := by
          rw [ht1res, List.length_append]
          rfl
        have ht1pend : t1.pending = t.pending ++ [t.allResults.length] := by
          rw [ht1]
        refine ⟨by simp [e1], ?_, ?_, ?_, ?_, ?_, ?_, ?_, ?_, ?_⟩
        · rw [e2, ht1]
        · rw [e3, ht1]
        · rw [e4, ht1]
        · rw [e5, ht1]
        · rw [e6, ht1pend, hi, List.append_assoc]
          rfl
        · rw [e7, ht1res, List.append_assoc, List.length_cons,
            List.replicate_succ]
          rfl
        · intro j hj
          cases j with
          | zero => simp [hi]
          | succ j =>
            have := e8 j (by simpa using hj)
            simp only [List.get?_cons_succ, this, ht1len, Option.some_inj]
            omega
        · refine List.nodup_cons.mpr ⟨?_, e9⟩
          intro hmem
          have := (e10 i hmem).1
          omega
        · intro x hx
          rcases List.mem_cons.mp hx with hx1 | hx2
          · subst hx1
            constructor
            · omega
            · simp [hi]
          · have := e10 x hx2
            rw [ht1len] at this
            simp only [List.length_cons]
            omega

/-- On a successful exchange with no reported errors, `post` clears the
statement queue and routes the pending queue and the results through the
result-matching loop. -/
lemma tx_post_ok_no_errors (rowFn : List String → List α → List α)
    (t : Tx α) (c : Bool) (rs : Response α)
    (hfin : t.finished = false) (herr : rs.errors = []) :
    (t.post rowFn c (.ok rs)).1.statements = [] ∧
    (t.post rowFn c (.ok rs)).1.pending =
      (processBlocks rowFn t.pending t.allResults rs.results).1 ∧
    (t.post rowFn c (.ok rs)).1.allResults =
      (processBlocks rowFn t.pending t.allResults rs.results).2.1 ∧
    (t.post rowFn c (.ok rs)).2.2 =
      (processBlocks rowFn t.pending t.allResults rs.results).2.2 := by
  rcases rs with ⟨loc, cm, errs, blocks⟩
  simp only at herr
  subst herr
  cases loc <;> cases cm <;> cases c <;> simp [Tx.post, hfin]

/-- Claim C7: after N `execute()` calls on an open transaction with an
empty queue, followed by one successful `post()` whose response carries
N result blocks and no errors, each of the N Results returned by
execute is populated from the response block at the same position
(strictly position-for-position, in call order), no error is raised,
and the internal statement queue and pending queue are empty. -/
theorem tx_post_populates_in_order (esc : PValue → List Char) (fuel : Nat)
    (rowFn : List String → List α → List α) (t t1 : Tx α)
    (L : List (List Char × List (List Char × PValue))) (idxs : List Nat)
    (rs : Response α)
    (hfin : t.finished = false) (hpend : t.pending = [])
    (hrun : t.executeMany esc fuel L = .ok (t1, idxs))
    (herr : rs.errors = []) (hlen : rs.results.length = L.length) :
    (t1.post rowFn false (.ok rs)).2.2 = none ∧
    (t1.post rowFn false (.ok rs)).1.statements = [] ∧
    (t1.post rowFn false (.ok rs)).1.pending = [] ∧
    idxs.length = L.length ∧
    (∀ j i keys data, idxs.get? j = some i → rs.results.get? j = some (keys, data) →
      (t1.post rowFn false (.ok rs)).1.allResults.get? i =
        some ⟨keys, data.map (rowFn keys), true⟩) := by
  obtain ⟨e1, _, e3, _, _, e6, e7, _, e9, e10⟩ :=
    executeMany_spec esc fuel L t t1 idxs hrun
  have hfin1 : t1.finished = false := by rw [e3, hfin]
  have hpend1 : t1.pending = idxs := by rw [e6, hpend, List.nil_append]
  have hlen1 : t1.pending.length = rs.results.length := by
    rw [hpend1, e1, hlen]
  have hin1 : ∀ i ∈ t1.pending, i < t1.allResults.length := by
    intro i hi
    rw [hpend1] at hi
    rw [e7, List.length_append, List.length_replicate]
    exact (e10 i hi).2
  have hnd1 : t1.pending.Nodup := by rw [hpend1]; exact e9
  obtain ⟨b1, b2, b3, b4⟩ := tx_post_ok_no_errors rowFn t1 false rs hfin1 herr
  obtain ⟨s1, s2, _, s4, _⟩ :=
    processBlocks_spec rowFn rs.results t1.pending t1.allResults
      hlen1 hnd1 hin1
  refine ⟨by rw [b4, s2], b1, by rw [b2, s1], e1, ?_⟩
  intro j i keys data hj hbj
  rw [b3]
  exact s4 j i keys data (by rw [hpend1]; exact hj) hbj

theorem tx_post_populates_in_order_witness :
    (((⟨"u", [⟨"R1".toList, []⟩, ⟨"R2".toList, []⟩], [0, 1],
        [Result.new, Result.new], none, none, false⟩ : Tx Int).post
        (fun _ r => r) false
        (.ok ⟨some "E", some "C", [],
          [(["a"], [[1]]), (["b"], [[2]])]⟩)).2.2 = none) ∧
    (((⟨"u", [⟨"R1".toList, []⟩, ⟨"R2".toList, []⟩], [0, 1],
        [Result.new, Result.new], none, none, false⟩ : Tx Int).post
        (fun _ r => r) false
        (.ok ⟨some "E", some "C", [],
          [(["a"], [[1]]), (["b"], [[2]])]⟩)).1.statements = []) ∧
    (((⟨"u", [⟨"R1".toList, []⟩, ⟨"R2".toList, []⟩], [0, 1],
        [Result.new, Result.new], none, none, false⟩ : Tx Int).post
        (fun _ r => r) false
        (.ok ⟨some "E", some "C", [],
          [(["a"], [[1]]), (["b"], [[2]])]⟩)).1.pending = []) ∧
    (((⟨"u", [⟨"R1".toList, []⟩, ⟨"R2".toList, []⟩], [0, 1],
        [Result.new, Result.new], none, none, false⟩ : Tx Int).post
        (fun _ r => r) false
        (.ok ⟨some "E", some "C", [],
          [(["a"], [[1]]), (["b"], [[2]])]⟩)).1.allResults.get? 0 =
      some ⟨["a"], [[1]], true⟩) ∧
    (((⟨"u", [⟨"R1".toList, []⟩, ⟨"R2".toList, []⟩], [0, 1],
        [Result.new, Result.new], none, none, false⟩ : Tx Int).post
        (fun _ r => r) false
        (.ok ⟨some "E", some "C", [],
          [(["a"], [[1]]), (["b"], [[2]])]⟩)).1.allResults.get? 1 =
      some ⟨["b"], [[2]], true⟩) := by
  have h := tx_post_populates_in_order (fun _ => []) 1 (fun _ r => r)
    (Tx.begin "u")
    (⟨"u", [⟨"R1".toList, []⟩, ⟨"R2".toList, []⟩], [0, 1],
      [Result.new, Result.new], none, none, false⟩ : Tx Int)
    [("R1".toList, []), ("R2".toList, [])] [0, 1]
    ⟨some "E", some "C", [], [(["a"], [[1]]), (["b"], [[2]])]⟩
    rfl rfl rfl rfl rfl
  exact ⟨h.1, h.2.1, h.2.2.1,
         h.2.2.2.2 0 0 ["a"] [[1]] rfl rfl,
         h.2.2.2.2 1 1 ["b"] [[2]] rfl rfl⟩

end Py2neoCypher
